import Mathlib

/-!
Shallow embedding of `src/graphics_stuff/basic_tracer.py`, a minimal sphere
ray tracer. Python floats are modelled as real numbers; the value
`float('inf')` (`POS_INF`), which the tracer uses both as a sentinel for
"no intersection" and as an unbounded `t_max`, is modelled by embedding the
intersection parameters `t` in `EReal` with `⊤` for `POS_INF`.  The Python
comparisons `t < closest_t`, `t_min < t < t_max` then have exactly the IEEE
semantics the source relies on (`inf < inf` is false, `x < inf` is true for
finite `x`).  Python's `int(...)` conversion (truncation toward zero) is
modelled by `pyInt`.  Real division by zero yields 0 in Lean where Python
would raise `ZeroDivisionError`; the spec (§7) declares those degenerate
inputs (zero-length direction/normal vectors) out of the design.
-/

noncomputable section

abbrev Vec3 : Type := ℝ × ℝ × ℝ

abbrev Vec2 : Type := ℝ × ℝ

/-- `Color = tuple[int, int, int]` in the source. -/
abbrev Color : Type := ℤ × ℤ × ℤ

def BLACK : Color := (0, 0, 0)

def RED : Color := (255, 0, 0)

def WHITE : Color := (255, 255, 255)

/-- Module-level constant `BACKGROUND_COLOR = WHITE` of the source. -/
def BACKGROUND_COLOR : Color := WHITE

/-- `EPSILON = 0.0001` in the source. -/
def EPSILON : ℝ := 0.0001

/-- View a `Color` (an integer triple) as a real vector, as Python's dynamic
numerics do implicitly when a color tuple enters float arithmetic. -/
def colorToVec (c : Color) : Vec3 := ((c.1 : ℝ), (c.2.1 : ℝ), (c.2.2 : ℝ))

/-- `dot` from the source. -/
def dot (a b : Vec3) : ℝ := a.1 * b.1 + a.2.1 * b.2.1 + a.2.2 * b.2.2

/-- `length` from the source. -/
def length (a : Vec3) : ℝ := Real.sqrt (dot a a)

/-- `scalar_multiply` from the source. -/
def scalar_multiply (a : Vec3) (s : ℝ) : Vec3 := (a.1 * s, a.2.1 * s, a.2.2 * s)

/-- `add` from the source. -/
def add (a b : Vec3) : Vec3 := (a.1 + b.1, a.2.1 + b.2.1, a.2.2 + b.2.2)

/-- `subtract` from the source. -/
def subtract (a b : Vec3) : Vec3 := (a.1 - b.1, a.2.1 - b.2.1, a.2.2 - b.2.2)

/-- Python's `int(x)` on a float: truncation toward zero. -/
def pyInt (x : ℝ) : ℤ := if 0 ≤ x then ⌊x⌋ else ⌈x⌉

/-- `_clamp_value` from the source: `int(min(255, max(0, s)))`. -/
def clamp_value (s : ℝ) : ℤ := pyInt (min 255 (max 0 s))

/-- `clamp` from the source. -/
def clamp (a : Vec3) : Color := (clamp_value a.1, clamp_value a.2.1, clamp_value a.2.2)

/-- `Sphere`.  The source caches `self.r2 = radius*radius` at construction and
the object is immutable afterwards, so the cache is modelled by the function
`Sphere.r2` below.  The constructor's type hint says `specular: int`, but
`compute_lighting` guards `specular is not None`, so the field is modelled as
`Option ℤ`. -/
structure Sphere where
  center : Vec3
  radius : ℝ
  color : Color
  specular : Option ℤ

def Sphere.r2 (s : Sphere) : ℝ := s.radius * s.radius

inductive LightType where
  | AMBIENT
  | POINT
  | DIRECTIONAL
deriving DecidableEq

/-- `Light`: class with a type tag and optional `position`/`direction`
(Python default `None`).  `compute_lighting` reads `position` only for POINT
lights and `direction` only for DIRECTIONAL lights, so the unused field is
modelled with the default vector `(0,0,0)`; a Python run that read a `None`
field would raise instead of returning a value and is not representable. -/
structure Light where
  light_type : LightType
  intensity : ℝ
  position : Vec3 := (0, 0, 0)
  direction : Vec3 := (0, 0, 0)

structure Scene where
  viewport_size : ℝ
  projection_plane : ℝ
  background_color : Color
  spheres : List Sphere
  lights : List Light

/-- The PIL image: only its dimensions matter to the render core. -/
structure Image where
  width : ℕ
  height : ℕ

/-- The pixel store `pixels = img.load()`: a mapping from raster coordinates
to colors.  The core only writes it. -/
abbrev Raster : Type := ℤ × ℤ → Color

def updateRaster (r : Raster) (k : ℤ × ℤ) (c : Color) : Raster :=
  fun k' => if k' = k then c else r k'

/-- `put_pixel` from the source:
`p_x = int(img.width / 2. + point[0])`, `p_y = int(img.height / 2. - point[1]) - 1`,
write only if `0 <= p_x < img.width and 0 <= p_y < img.height`. -/
def put_pixel (img : Image) (pixels : Raster) (point : Vec2) (color : Color) : Raster :=
  let p_x := pyInt ((img.width : ℝ) / 2 + point.1)
  let p_y := pyInt ((img.height : ℝ) / 2 - point.2) - 1
  if 0 ≤ p_x ∧ p_x < (img.width : ℤ) ∧ 0 ≤ p_y ∧ p_y < (img.height : ℤ) then
    updateRaster pixels (p_x, p_y) color
  else pixels

/-- `canvas_to_viewport` from the source. -/
def canvas_to_viewport (canvas_point : Vec2) (img : Image) (scene : Scene) : Vec3 :=
  (canvas_point.1 * scene.viewport_size / (img.width : ℝ),
   canvas_point.2 * scene.viewport_size / (img.height : ℝ),
   scene.projection_plane)

/-- `intersect_ray_sphere` from the source.  `POS_INF` becomes `⊤ : EReal`. -/
def intersect_ray_sphere (origin direction : Vec3) (sphere : Sphere) : EReal × EReal :=
  let origin_to_sphere := subtract origin sphere.center
  let a := dot direction direction
  let b := 2 * dot origin_to_sphere direction
  let c := dot origin_to_sphere origin_to_sphere - sphere.r2
  let discriminant := b * b - 4 * a * c
  if discriminant < 0 then (⊤, ⊤)
  else
    let sqrt_disc := Real.sqrt discriminant
    ((((-b + sqrt_disc) / (2 * a) : ℝ) : EReal), (((-b - sqrt_disc) / (2 * a) : ℝ) : EReal))

/-- The quadratic coefficient `b = 2*dot(origin - center, direction)` of
`intersect_ray_sphere`, hoisted to a named definition for the statements. -/
def quadB (origin direction : Vec3) (sphere : Sphere) : ℝ :=
  2 * dot (subtract origin sphere.center) direction

/-- The quadratic coefficient `c = dot(origin - center, origin - center) - r2`. -/
def quadC (origin : Vec3) (sphere : Sphere) : ℝ :=
  dot (subtract origin sphere.center) (subtract origin sphere.center) - sphere.r2

/-- The discriminant `b*b - 4*a*c` computed by `intersect_ray_sphere`. -/
def rayDiscrim (origin direction : Vec3) (sphere : Sphere) : ℝ :=
  quadB origin direction sphere * quadB origin direction sphere -
    4 * dot direction direction * quadC origin sphere

/-- The root `(-b + sqrt(discriminant)) / (2*a)`. -/
def root1 (origin direction : Vec3) (sphere : Sphere) : ℝ :=
  (-(quadB origin direction sphere) + Real.sqrt (rayDiscrim origin direction sphere)) /
    (2 * dot direction direction)

/-- The root `(-b - sqrt(discriminant)) / (2*a)`. -/
def root2 (origin direction : Vec3) (sphere : Sphere) : ℝ :=
  (-(quadB origin direction sphere) - Real.sqrt (rayDiscrim origin direction sphere)) /
    (2 * dot direction direction)

/-- The spec's description of the intersection routine (§4.2), written from
the spec's words: coefficients `a`, `b`, `c`, discriminant `b² − 4ac`,
`(+∞, +∞)` for a negative discriminant, and otherwise the two roots
`(−b ± √discriminant)` divided by the full quantity `2a`. -/
def intersectRaySphereSpec (origin direction : Vec3) (sphere : Sphere) : EReal × EReal :=
  let a := dot direction direction
  let b := 2 * dot (subtract origin sphere.center) direction
  let c := dot (subtract origin sphere.center) (subtract origin sphere.center) -
    sphere.radius * sphere.radius
  if b * b - 4 * a * c < 0 then (⊤, ⊤)
  else ((((-b + Real.sqrt (b * b - 4 * a * c)) / (2 * a) : ℝ) : EReal),
        (((-b - Real.sqrt (b * b - 4 * a * c)) / (2 * a) : ℝ) : EReal))

/-- One `if t < closest_t and t_min < t < t_max` block of the
`closest_intersection` loop: keep `(sphere, t)` when the root improves on the
current closest and lies strictly inside the bounds. -/
def ciCheck (t_min t_max : EReal) (acc : Option Sphere × EReal) (sphere : Sphere)
    (t : EReal) : Option Sphere × EReal :=
  if t < acc.2 ∧ t_min < t ∧ t < t_max then (some sphere, t) else acc

/-- One iteration of the `for sphere in spheres` loop of
`closest_intersection`: the `t_1` check followed by the `t_2` check. -/
def ciStep (origin direction : Vec3) (t_min t_max : EReal)
    (acc : Option Sphere × EReal) (sphere : Sphere) : Option Sphere × EReal :=
  ciCheck t_min t_max
    (ciCheck t_min t_max acc sphere (intersect_ray_sphere origin direction sphere).1)
    sphere (intersect_ray_sphere origin direction sphere).2

/-- `closest_intersection` from the source: fold of the loop body over the
sphere list starting from `closest_t = POS_INF`, `closest_sphere = None`. -/
def closest_intersection (origin direction : Vec3) (t_min t_max : EReal)
    (spheres : List Sphere) : Option Sphere × EReal :=
  spheres.foldl (ciStep origin direction t_min t_max) (none, ⊤)

/-- `t` is a root of `intersect_ray_sphere` for this sphere lying strictly
inside the open interval `(t_min, t_max)` — the qualification test of the
`closest_intersection` loop. -/
def qualifies (origin direction : Vec3) (t_min t_max : EReal) (sphere : Sphere)
    (t : EReal) : Prop :=
  (t = (intersect_ray_sphere origin direction sphere).1 ∨
     t = (intersect_ray_sphere origin direction sphere).2) ∧ t_min < t ∧ t < t_max

/-- Some sphere root lies strictly inside `(t_min, t_max)`: the ray hits the
sphere within the bounds. -/
def hitsIn (origin direction : Vec3) (t_min t_max : EReal) (sphere : Sphere) : Prop :=
  ∃ t, qualifies origin direction t_min t_max sphere t

/-- One iteration of the `for light in lights` loop of `compute_lighting`.
`length_n` and `length_v` are the lengths of the normal and view vectors,
computed once before the loop as in the source. -/
def lightingStep (point normal view : Vec3) (spheres : List Sphere)
    (specular : Option ℤ) (length_n length_v : ℝ) (intensity : ℝ) (light : Light) : ℝ :=
  if light.light_type = LightType.AMBIENT then intensity + light.intensity
  else
    let light_direction :=
      if light.light_type = LightType.POINT then subtract light.position point
      else light.direction
    let t_max : EReal := if light.light_type = LightType.POINT then ((1 : ℝ) : EReal) else ⊤
    let shadow := closest_intersection point light_direction ((EPSILON : ℝ) : EReal) t_max spheres
    if shadow.1.isSome then intensity
    else
      let n_dot_l := dot normal light_direction
      let intensity1 :=
        if n_dot_l > 0 then
          intensity + light.intensity * (n_dot_l / (length_n * length light_direction))
        else intensity
      match specular with
      | none => intensity1
      | some e =>
        let reflection :=
          subtract (scalar_multiply normal (2 * dot normal light_direction)) light_direction
        let r_dot_v := dot reflection view
        if r_dot_v > 0 then
          intensity1 + light.intensity * (r_dot_v / (length reflection * length_v)) ^ e
        else intensity1

/-- `compute_lighting` from the source. -/
def compute_lighting (point normal view : Vec3) (spheres : List Sphere)
    (lights : List Light) (specular : Option ℤ) : ℝ :=
  lights.foldl (lightingStep point normal view spheres specular (length normal) (length view)) 0

/-- The spec's per-light contribution (§4.3), written from the spec's words:
ambient lights add their intensity unconditionally; a point light uses light
vector `position − point` and shadow `tMax = 1.0`, a directional light uses
its fixed direction and shadow `tMax = +∞`; a light whose shadow query
`closestIntersection(point, L, EPSILON, tMax, spheres)` returns any sphere
contributes 0; otherwise the guarded diffuse and specular terms are added. -/
def lightContribution (point normal view : Vec3) (spheres : List Sphere)
    (specular : Option ℤ) (light : Light) : ℝ :=
  match light.light_type with
  | LightType.AMBIENT => light.intensity
  | _ =>
    let L :=
      if light.light_type = LightType.POINT then subtract light.position point
      else light.direction
    let t_max : EReal := if light.light_type = LightType.POINT then ((1 : ℝ) : EReal) else ⊤
    if (closest_intersection point L ((EPSILON : ℝ) : EReal) t_max spheres).1.isSome then 0
    else
      (if dot normal L > 0 then
        light.intensity * (dot normal L / (length normal * length L))
       else 0) +
      match specular with
      | none => 0
      | some e =>
        let R := subtract (scalar_multiply normal (2 * dot normal L)) L
        if dot R view > 0 then
          light.intensity * (dot R view / (length R * length view)) ^ e
        else 0

/-- `trace_ray` from the source.  In the `some` branch `closest_t` is the
(finite) coerced real produced by the fold, extracted with `EReal.toReal`. -/
def trace_ray (origin direction : Vec3) (t_min t_max : EReal) (scene : Scene) : Vec3 :=
  let res := closest_intersection origin direction t_min t_max scene.spheres
  match res.1 with
  | none => colorToVec BACKGROUND_COLOR
  | some closest_sphere =>
    let point := add origin (scalar_multiply direction res.2.toReal)
    let normal0 := subtract point closest_sphere.center
    let normal := scalar_multiply normal0 (1 / length normal0)
    let view := scalar_multiply direction (-1)
    let lighting :=
      compute_lighting point normal view scene.spheres scene.lights closest_sphere.specular
    scalar_multiply (colorToVec closest_sphere.color) lighting

/-- The half-open integer interval `[a, b)` of Python's `range(a, b)`. -/
def intRange (a b : ℤ) : List ℤ :=
  (List.range (b - a).toNat).map (fun (i : ℕ) => a + (i : ℤ))

/-- `draw_scene` from the source: for `x in range(int(-c_w/2), int(c_w/2))`,
for `y in range(int(-c_h/2), int(c_h/2))`, trace with `t_min = 1.0`,
`t_max = POS_INF` and write the clamped color with `put_pixel`. -/
def draw_scene (scene : Scene) (img : Image) (camera_position : Vec3)
    (pixels : Raster) : Raster :=
  (intRange (pyInt (-(img.width : ℝ) / 2)) (pyInt ((img.width : ℝ) / 2))).foldl
    (fun (r : Raster) (x : ℤ) =>
      (intRange (pyInt (-(img.height : ℝ) / 2)) (pyInt ((img.height : ℝ) / 2))).foldl
        (fun (r' : Raster) (y : ℤ) =>
          let direction := canvas_to_viewport ((x : ℝ), (y : ℝ)) img scene
          let color := trace_ray camera_position direction ((1 : ℝ) : EReal) ⊤ scene
          put_pixel img r' ((x : ℝ), (y : ℝ)) (clamp color))
        r)
    pixels

/-- The raster coordinate `put_pixel` computes for an integer pixel offset. -/
def pixelTarget (img : Image) (k : ℤ × ℤ) : ℤ × ℤ :=
  (pyInt ((img.width : ℝ) / 2 + (k.1 : ℝ)), pyInt ((img.height : ℝ) / 2 - (k.2 : ℝ)) - 1)

/-- The bounds test of `put_pixel`. -/
def inRaster (img : Image) (t : ℤ × ℤ) : Prop :=
  0 ≤ t.1 ∧ t.1 < (img.width : ℤ) ∧ 0 ≤ t.2 ∧ t.2 < (img.height : ℤ)

instance (img : Image) (t : ℤ × ℤ) : Decidable (inRaster img t) := by
  unfold inRaster; infer_instance

/-- The color the render loop computes for one pixel offset: a function of
the scene, the camera position, the image dimensions and the offset alone. -/
def pixelColor (scene : Scene) (camera_position : Vec3) (img : Image) (k : ℤ × ℤ) : Color :=
  clamp (trace_ray camera_position (canvas_to_viewport ((k.1 : ℝ), (k.2 : ℝ)) img scene)
    ((1 : ℝ) : EReal) ⊤ scene)

/-- The body of the render loop for one pixel offset, as a raster update. -/
def writePixel (scene : Scene) (camera_position : Vec3) (img : Image)
    (r : Raster) (k : ℤ × ℤ) : Raster :=
  put_pixel img r ((k.1 : ℝ), (k.2 : ℝ)) (pixelColor scene camera_position img k)

/-- The pixel offsets `draw_scene` visits, in its iteration order
(`x` outer, `y` inner, both ascending). -/
def drawOrder (img : Image) : List (ℤ × ℤ) :=
  (intRange (pyInt (-(img.width : ℝ) / 2)) (pyInt ((img.width : ℝ) / 2))).flatMap
    (fun x =>
      (intRange (pyInt (-(img.height : ℝ) / 2)) (pyInt ((img.height : ℝ) / 2))).map
        (fun y => (x, y)))

/-! ### Basic lemmas about the embedding -/

theorem pyInt_intCast (n : ℤ) : pyInt ((n : ℤ) : ℝ) = n := by
  unfold pyInt
  split
  · exact Int.floor_intCast n
  · exact Int.ceil_intCast n

theorem length_nonneg (v : Vec3) : 0 ≤ length v := Real.sqrt_nonneg _

theorem ciCheck_snd_le (t_min t_max : EReal) (acc : Option Sphere × EReal)
    (sphere : Sphere) (t : EReal) : (ciCheck t_min t_max acc sphere t).2 ≤ acc.2 := by
  unfold ciCheck
  split
  · next h => exact le_of_lt h.1
  · exact le_refl _

theorem ciCheck_le_of_bounds (t_min t_max : EReal) (acc : Option Sphere × EReal)
    (sphere : Sphere) (t : EReal) (h1 : t_min < t) (h2 : t < t_max) :
    (ciCheck t_min t_max acc sphere t).2 ≤ t := by
  unfold ciCheck
  split
  · exact le_refl _
  · next h =>
    rcases lt_or_le t acc.2 with hlt | hle
    · exact absurd ⟨hlt, h1, h2⟩ h
    · exact hle

theorem ciCheck_cases (t_min t_max : EReal) (acc : Option Sphere × EReal)
    (sphere : Sphere) (t : EReal) :
    ciCheck t_min t_max acc sphere t = acc ∨
      (ciCheck t_min t_max acc sphere t = (some sphere, t) ∧
        t < acc.2 ∧ t_min < t ∧ t < t_max) := by
  unfold ciCheck
  split
  · next h => exact Or.inr ⟨rfl, h⟩
  · exact Or.inl rfl

theorem ciStep_snd_le (origin direction : Vec3) (t_min t_max : EReal)
    (acc : Option Sphere × EReal) (sphere : Sphere) :
    (ciStep origin direction t_min t_max acc sphere).2 ≤ acc.2 := by
  unfold ciStep
  exact le_trans (ciCheck_snd_le _ _ _ _ _) (ciCheck_snd_le _ _ _ _ _)

theorem ciStep_le_of_qual (origin direction : Vec3) (t_min t_max : EReal)
    (acc : Option Sphere × EReal) (sphere : Sphere) (t : EReal)
    (h : qualifies origin direction t_min t_max sphere t) :
    (ciStep origin direction t_min t_max acc sphere).2 ≤ t := by
  obtain ⟨hroot, hmin, hmax⟩ := h
  unfold ciStep
  rcases hroot with h1 | h2
  · subst h1
    exact le_trans (ciCheck_snd_le _ _ _ _ _) (ciCheck_le_of_bounds _ _ _ _ _ hmin hmax)
  · subst h2
    exact ciCheck_le_of_bounds _ _ _ _ _ hmin hmax

theorem ciStep_cases (origin direction : Vec3) (t_min t_max : EReal)
    (acc : Option Sphere × EReal) (sphere : Sphere) :
    ciStep origin direction t_min t_max acc sphere = acc ∨
      ((ciStep origin direction t_min t_max acc sphere).1 = some sphere ∧
        qualifies origin direction t_min t_max sphere
          (ciStep origin direction t_min t_max acc sphere).2 ∧
        (ciStep origin direction t_min t_max acc sphere).2 < acc.2) := by
  unfold ciStep
  rcases ciCheck_cases t_min t_max acc sphere
      (intersect_ray_sphere origin direction sphere).1 with hin | ⟨hin, hlt1, hmin1, hmax1⟩
  · rw [hin]
    rcases ciCheck_cases t_min t_max acc sphere
        (intersect_ray_sphere origin direction sphere).2 with hout | ⟨hout, hlt2, hmin2, hmax2⟩
    · exact Or.inl hout
    · rw [hout]
      exact Or.inr ⟨rfl, ⟨Or.inr rfl, hmin2, hmax2⟩, hlt2⟩
  · rw [hin]
    rcases ciCheck_cases t_min t_max (some sphere,
        (intersect_ray_sphere origin direction sphere).1) sphere
        (intersect_ray_sphere origin direction sphere).2 with hout | ⟨hout, hlt2, hmin2, hmax2⟩
    · rw [hout]
      exact Or.inr ⟨rfl, ⟨Or.inl rfl, hmin1, hmax1⟩, hlt1⟩
    · rw [hout]
      exact Or.inr ⟨rfl, ⟨Or.inr rfl, hmin2, hmax2⟩, lt_trans hlt2 hlt1⟩

/-- Characterization of the `closest_intersection` fold from an arbitrary
accumulator: either no sphere of the list improved on the accumulator (and
every qualifying root of the list is at least `acc.2`), or the result selects
some sphere `s` of the list whose qualifying root it carries, that root is a
lower bound of all qualifying roots of the list and strictly below the
accumulator, and every sphere listed before `s` has only strictly larger
qualifying roots. -/
theorem ciFold_char (origin direction : Vec3) (t_min t_max : EReal) :
    ∀ (l : List Sphere) (acc : Option Sphere × EReal),
      (l.foldl (ciStep origin direction t_min t_max) acc = acc ∧
        ∀ s ∈ l, ∀ t, qualifies origin direction t_min t_max s t → acc.2 ≤ t) ∨
      (∃ l₁ s l₂, l = l₁ ++ s :: l₂ ∧
        (l.foldl (ciStep origin direction t_min t_max) acc).1 = some s ∧
        qualifies origin direction t_min t_max s
          (l.foldl (ciStep origin direction t_min t_max) acc).2 ∧
        (l.foldl (ciStep origin direction t_min t_max) acc).2 < acc.2 ∧
        (∀ s' ∈ l, ∀ t, qualifies origin direction t_min t_max s' t →
          (l.foldl (ciStep origin direction t_min t_max) acc).2 ≤ t) ∧
        (∀ s' ∈ l₁, ∀ t, qualifies origin direction t_min t_max s' t →
          (l.foldl (ciStep origin direction t_min t_max) acc).2 < t)) := by
  intro l
  induction l with
  | nil =>
    intro acc
    exact Or.inl ⟨rfl, by simp⟩
  | cons a l ih =>
    intro acc
    have hfold : (a :: l).foldl (ciStep origin direction t_min t_max) acc =
        l.foldl (ciStep origin direction t_min t_max)
          (ciStep origin direction t_min t_max acc a) := rfl
    rcases ciStep_cases origin direction t_min t_max acc a with hstep | ⟨hs1, hsq, hslt⟩
    · -- the head sphere did not improve on the accumulator
      have hhead : ∀ t, qualifies origin direction t_min t_max a t → acc.2 ≤ t := by
        intro t ht
        have := ciStep_le_of_qual origin direction t_min t_max acc a t ht
        rw [hstep] at this
        exact this
      rcases ih (ciStep origin direction t_min t_max acc a) with ⟨heq, hall⟩ |
          ⟨l₁, s, l₂, hsplit, h1, hq, hlt, hall, hstrict⟩
      · refine Or.inl ⟨?_, ?_⟩
        · rw [hfold, heq, hstep]
        · intro s hs t ht
          rcases List.mem_cons.mp hs with rfl | hs'
          · exact hhead t ht
          · have := hall s hs' t ht
            rw [hstep] at this
            exact this
      · refine Or.inr ⟨a :: l₁, s, l₂, by rw [hsplit]; rfl, ?_, ?_, ?_, ?_, ?_⟩
        · rw [hfold, hstep]; rw [hstep] at h1; exact h1
        · rw [hfold, hstep]; rw [hstep] at hq; exact hq
        · rw [hfold, hstep]; rw [hstep] at hlt; exact hlt
        · intro s' hs' t ht
          rw [hfold, hstep]
          rcases List.mem_cons.mp hs' with rfl | hmem
          · rw [hstep] at hlt
            exact le_of_lt (lt_of_lt_of_le hlt (hhead t ht))
          · have := hall s' hmem t ht
            rw [hstep] at this
            exact this
        · intro s' hs' t ht
          rw [hfold, hstep]
          rcases List.mem_cons.mp hs' with rfl | hmem
          · rw [hstep] at hlt
            exact lt_of_lt_of_le hlt (hhead t ht)
          · have := hstrict s' hmem t ht
            rw [hstep] at this
            exact this
    · -- the head sphere improved: the accumulator now carries `a`
      have hstep_le : (ciStep origin direction t_min t_max acc a).2 ≤ acc.2 :=
        ciStep_snd_le origin direction t_min t_max acc a
      rcases ih (ciStep origin direction t_min t_max acc a) with ⟨heq, hall⟩ |
          ⟨l₁, s, l₂, hsplit, h1, hq, hlt, hall, hstrict⟩
      · refine Or.inr ⟨[], a, l, rfl, ?_, ?_, ?_, ?_, ?_⟩
        · rw [hfold, heq]; exact hs1
        · rw [hfold, heq]; exact hsq
        · rw [hfold, heq]; exact hslt
        · intro s' hs' t ht
          rw [hfold, heq]
          rcases List.mem_cons.mp hs' with rfl | hmem
          · exact ciStep_le_of_qual origin direction t_min t_max acc s' t ht
          · exact hall s' hmem t ht
        · intro s' hs' t ht
          exact absurd hs' (List.not_mem_nil s')
      · refine Or.inr ⟨a :: l₁, s, l₂, by rw [hsplit]; rfl, ?_, ?_, ?_, ?_, ?_⟩
        · rw [hfold]; exact h1
        · rw [hfold]; exact hq
        · rw [hfold]; exact lt_of_lt_of_le hlt hstep_le
        · intro s' hs' t ht
          rw [hfold]
          rcases List.mem_cons.mp hs' with rfl | hmem
          · exact le_of_lt (lt_of_lt_of_le hlt
              (ciStep_le_of_qual origin direction t_min t_max acc s' t ht))
          · exact hall s' hmem t ht
        · intro s' hs' t ht
          rw [hfold]
          rcases List.mem_cons.mp hs' with rfl | hmem
          · exact lt_of_lt_of_le hlt
              (ciStep_le_of_qual origin direction t_min t_max acc s' t ht)
          · exact hstrict s' hmem t ht

/-- Full characterization of `closest_intersection`: either no sphere of the
list has a root strictly inside `(t_min, t_max)` and the result is
`(none, +∞)`, or the result carries some sphere `s` of the list together with
a qualifying root of `s` that is a lower bound of every qualifying root of
every sphere in the list, and every sphere occurring before `s` in the list
has only strictly larger qualifying roots (so at a tie the earlier sphere is
kept). -/
theorem closest_intersection_char (origin direction : Vec3) (t_min t_max : EReal)
    (spheres : List Sphere) :
    (closest_intersection origin direction t_min t_max spheres = (none, ⊤) ∧
      ∀ s ∈ spheres, ¬ hitsIn origin direction t_min t_max s) ∨
    (∃ l₁ s l₂, spheres = l₁ ++ s :: l₂ ∧
      (closest_intersection origin direction t_min t_max spheres).1 = some s ∧
      qualifies origin direction t_min t_max s
        (closest_intersection origin direction t_min t_max spheres).2 ∧
      (∀ s' ∈ spheres, ∀ t, qualifies origin direction t_min t_max s' t →
        (closest_intersection origin direction t_min t_max spheres).2 ≤ t) ∧
      (∀ s' ∈ l₁, ∀ t, qualifies origin direction t_min t_max s' t →
        (closest_intersection origin direction t_min t_max spheres).2 < t)) := by
  rcases ciFold_char origin direction t_min t_max spheres (none, ⊤) with ⟨heq, hall⟩ |
      ⟨l₁, s, l₂, hsplit, h1, hq, _, hall, hstrict⟩
  · refine Or.inl ⟨heq, ?_⟩
    intro s hs ⟨t, ht⟩
    have htop : (⊤ : EReal) ≤ t := hall s hs t ht
    have : t < ⊤ := lt_of_lt_of_le ht.2.2 le_top
    exact absurd (lt_of_le_of_lt htop this) (lt_irrefl _)
  · exact Or.inr ⟨l₁, s, l₂, hsplit, h1, hq, hall, hstrict⟩

/-- When no sphere of the list is hit strictly inside `(t_min, t_max)`,
`closest_intersection` returns `(None, POS_INF)`. -/
theorem closest_intersection_none (origin direction : Vec3) (t_min t_max : EReal)
    (spheres : List Sphere)
    (h : ∀ s ∈ spheres, ¬ hitsIn origin direction t_min t_max s) :
    closest_intersection origin direction t_min t_max spheres = (none, ⊤) := by
  rcases closest_intersection_char origin direction t_min t_max spheres with ⟨heq, _⟩ |
      ⟨l₁, s, l₂, hsplit, _, hq, _, _⟩
  · exact heq
  · exact absurd ⟨_, hq⟩ (h s (by rw [hsplit]; exact List.mem_append_right l₁ (List.mem_cons_self s l₂)))

/-- `intersect_ray_sphere` rewritten through the named coefficient helpers. -/
theorem intersect_eq (origin direction : Vec3) (sphere : Sphere) :
    intersect_ray_sphere origin direction sphere =
      if rayDiscrim origin direction sphere < 0 then (⊤, ⊤)
      else (((root1 origin direction sphere : ℝ) : EReal),
            ((root2 origin direction sphere : ℝ) : EReal)) := rfl

/-- Evaluation of `closest_intersection` for a single sphere centered on the
z-axis at distance `d`, radius `r < d`, and the unit ray `(0,0,1)` from the
origin: the near root `d - r` is selected. -/
theorem closest_intersection_axis (d r : ℝ) (col : Color) (spec : Option ℤ)
    (t_min : EReal) (hr : 0 < r) (hrd : r < d) (ht : t_min < ((d - r : ℝ) : EReal)) :
    closest_intersection (0, 0, 0) (0, 0, 1) t_min ⊤ [⟨(0, 0, d), r, col, spec⟩] =
      (some ⟨(0, 0, d), r, col, spec⟩, ((d - r : ℝ) : EReal)) := by
  set s : Sphere := ⟨(0, 0, d), r, col, spec⟩ with hs
  have hB : quadB (0, 0, 0) (0, 0, 1) s = -(2 * d) := by
    simp [quadB, dot, subtract, hs]
  have hC : quadC (0, 0, 0) s = d * d - r * r := by
    simp [quadC, dot, subtract, Sphere.r2, hs]
  have hA : dot ((0 : ℝ), (0 : ℝ), (1 : ℝ)) (0, 0, 1) = 1 := by norm_num [dot]
  have hD : rayDiscrim (0, 0, 0) (0, 0, 1) s = (2 * r) ^ 2 := by
    rw [rayDiscrim, hB, hC, hA]; ring
  have hsq : Real.sqrt (rayDiscrim (0, 0, 0) (0, 0, 1) s) = 2 * r := by
    rw [hD]; exact Real.sqrt_sq (by linarith)
  have h1 : root1 (0, 0, 0) (0, 0, 1) s = d + r := by
    rw [root1, hB, hsq, hA]; ring
  have h2 : root2 (0, 0, 0) (0, 0, 1) s = d - r := by
    rw [root2, hB, hsq, hA]; ring
  have hint : intersect_ray_sphere (0, 0, 0) (0, 0, 1) s =
      (((d + r : ℝ) : EReal), ((d - r : ℝ) : EReal)) := by
    rw [intersect_eq, if_neg (by rw [hD]; exact not_lt.2 (sq_nonneg _)), h1, h2]
  have hfold : closest_intersection (0, 0, 0) (0, 0, 1) t_min ⊤ [s] =
      ciStep (0, 0, 0) (0, 0, 1) t_min ⊤ (none, ⊤) s := rfl
  rw [hfold]
  unfold ciStep
  rw [hint]
  have hc1 : ciCheck t_min ⊤ (none, (⊤ : EReal)) s ((d + r : ℝ) : EReal) =
      (some s, ((d + r : ℝ) : EReal)) := by
    unfold ciCheck
    rw [if_pos]
    exact ⟨EReal.coe_lt_top _,
      lt_trans ht (EReal.coe_lt_coe_iff.2 (by linarith)), EReal.coe_lt_top _⟩
  rw [hc1]
  unfold ciCheck
  rw [if_pos]
  exact ⟨EReal.coe_lt_coe_iff.2 (by linarith), ht, EReal.coe_lt_top _⟩

/-- **C5.**  For a scene containing a single sphere whose center lies on the
camera axis at distance `d` with radius `r < d`, and the unit-length ray cast
from the camera straight down that axis with `t_min < d - r`,
`closest_intersection` reports an intersection with that sphere at exactly
`t = d - r` (the floating-point tolerance of the claim is not needed over the
exact reals). -/
theorem axis_sphere_hit_at_d_sub_r (d r : ℝ) (col : Color) (spec : Option ℤ)
    (t_min : EReal) (hr : 0 < r) (hrd : r < d) (ht : t_min < ((d - r : ℝ) : EReal)) :
    closest_intersection (0, 0, 0) (0, 0, 1) t_min ⊤ [⟨(0, 0, d), r, col, spec⟩] =
      (some ⟨(0, 0, d), r, col, spec⟩, ((d - r : ℝ) : EReal)) :=
  closest_intersection_axis d r col spec t_min hr hrd ht

/-- Witness for C5 at `d = 3`, `r = 1`, `t_min = 1`: the hit is at `t = 2`. -/
theorem axis_sphere_hit_at_d_sub_r_witness :
    ((0 : ℝ) < 1 ∧ (1 : ℝ) < 3 ∧ ((1 : ℝ) : EReal) < ((3 - 1 : ℝ) : EReal)) ∧
      closest_intersection (0, 0, 0) (0, 0, 1) ((1 : ℝ) : EReal) ⊤
          [⟨(0, 0, 3), 1, RED, some 500⟩] =
        (some ⟨(0, 0, 3), 1, RED, some 500⟩, ((3 - 1 : ℝ) : EReal)) := by
  refine ⟨⟨by norm_num, by norm_num, EReal.coe_lt_coe_iff.2 (by norm_num)⟩, ?_⟩
  exact axis_sphere_hit_at_d_sub_r 3 1 RED (some 500) ((1 : ℝ) : EReal)
    (by norm_num) (by norm_num) (EReal.coe_lt_coe_iff.2 (by norm_num))

/-- **C3.**  For every ray, bounds `t_min < t_max` and sphere list,
`closest_intersection` either returns `(none, +∞)` and then no sphere of the
list has a root strictly inside the open interval `(t_min, t_max)`, or it
returns `some` sphere of the list together with a qualifying root of that
sphere that is ≤ every qualifying root of every sphere of the list (the
smallest root strictly inside the interval), and every sphere occurring
earlier in scene order has only strictly larger qualifying roots — so when
two spheres are reached at an identical smallest `t` the earlier sphere is
returned, deterministically (the function is pure). -/
theorem closest_intersection_correct (origin direction : Vec3) (t_min t_max : EReal)
    (spheres : List Sphere) (hbounds : t_min < t_max) :
    (closest_intersection origin direction t_min t_max spheres = (none, ⊤) ∧
      ∀ s ∈ spheres, ¬ hitsIn origin direction t_min t_max s) ∨
    (∃ l₁ s l₂, spheres = l₁ ++ s :: l₂ ∧
      (closest_intersection origin direction t_min t_max spheres).1 = some s ∧
      qualifies origin direction t_min t_max s
        (closest_intersection origin direction t_min t_max spheres).2 ∧
      (∀ s' ∈ spheres, ∀ t, qualifies origin direction t_min t_max s' t →
        (closest_intersection origin direction t_min t_max spheres).2 ≤ t) ∧
      (∀ s' ∈ l₁, ∀ t, qualifies origin direction t_min t_max s' t →
        (closest_intersection origin direction t_min t_max spheres).2 < t)) :=
  closest_intersection_char origin direction t_min t_max spheres

/-- Witness for C3: bounds `1 < +∞` and a single axis sphere; the result of
`closest_intersection` is that sphere at the smaller in-bounds root `t = 2`. -/
theorem closest_intersection_correct_witness :
    ((1 : ℝ) : EReal) < (⊤ : EReal) ∧
      closest_intersection (0, 0, 0) (0, 0, 1) ((1 : ℝ) : EReal) ⊤
          [⟨(0, 0, 3), 1, WHITE, some 10⟩] =
        (some ⟨(0, 0, 3), 1, WHITE, some 10⟩, ((2 : ℝ) : EReal)) := by
  have hb : ((1 : ℝ) : EReal) < (⊤ : EReal) := EReal.coe_lt_top 1
  have hchar := closest_intersection_correct (0, 0, 0) (0, 0, 1) ((1 : ℝ) : EReal) ⊤
    [⟨(0, 0, 3), 1, WHITE, some 10⟩] hb
  refine ⟨hb, ?_⟩
  have h := closest_intersection_axis 3 1 WHITE (some 10) ((1 : ℝ) : EReal)
    (by norm_num) (by norm_num) (EReal.coe_lt_coe_iff.2 (by norm_num))
  norm_num at h
  exact h

/-- **C1 (amended).**  When no sphere of the scene is hit strictly inside
`(t_min, t_max)`, `trace_ray` returns the module-level constant
`BACKGROUND_COLOR` (white); this coincides with the background color stored
in the `Scene` value exactly when the scene stores that constant (as the
program's demo scene does), but `trace_ray` never reads
`scene.background_color`. -/
theorem trace_ray_background (origin direction : Vec3) (t_min t_max : EReal)
    (scene : Scene)
    (h : ∀ s ∈ scene.spheres, ¬ hitsIn origin direction t_min t_max s) :
    trace_ray origin direction t_min t_max scene = colorToVec BACKGROUND_COLOR ∧
      (scene.background_color = BACKGROUND_COLOR →
        trace_ray origin direction t_min t_max scene = colorToVec scene.background_color) := by
  have hci := closest_intersection_none origin direction t_min t_max scene.spheres h
  have hmain : trace_ray origin direction t_min t_max scene = colorToVec BACKGROUND_COLOR := by
    unfold trace_ray
    rw [hci]
  exact ⟨hmain, fun hbg => by rw [hbg]; exact hmain⟩

/-- Counterexample to C1 as stated: a scene whose stored background color is
black and which contains no spheres at all (so no sphere is hit in any
interval); `trace_ray` returns white — the module constant — and not
`scene.background_color`. -/
theorem trace_ray_background_counterexample :
    trace_ray (0, 0, 0) (0, 0, 1) ((1 : ℝ) : EReal) ⊤
        ⟨1, 1, BLACK, [], []⟩ ≠
      colorToVec (Scene.background_color ⟨1, 1, BLACK, [], []⟩) := by
  intro heq
  have hl : trace_ray (0, 0, 0) (0, 0, 1) ((1 : ℝ) : EReal) ⊤ ⟨1, 1, BLACK, [], []⟩ =
      colorToVec BACKGROUND_COLOR := by
    unfold trace_ray
    rw [show closest_intersection (0, 0, 0) (0, 0, 1) ((1 : ℝ) : EReal) ⊤
        (Scene.spheres ⟨1, 1, BLACK, [], []⟩) = (none, ⊤) from rfl]
  rw [hl] at heq
  have : ((255 : ℤ) : ℝ) = ((0 : ℤ) : ℝ) := congrArg Prod.fst heq
  norm_num at this

/-- Witness for C1 (amended): the empty scene whose stored background is the
module constant; both conclusions evaluate. -/
theorem trace_ray_background_witness :
    trace_ray (0, 0, 0) (0, 0, 1) ((1 : ℝ) : EReal) ⊤ ⟨1, 1, WHITE, [], []⟩ =
        colorToVec BACKGROUND_COLOR ∧
      trace_ray (0, 0, 0) (0, 0, 1) ((1 : ℝ) : EReal) ⊤ ⟨1, 1, WHITE, [], []⟩ =
        colorToVec (Scene.background_color ⟨1, 1, WHITE, [], []⟩) := by
  have h := trace_ray_background (0, 0, 0) (0, 0, 1) ((1 : ℝ) : EReal) ⊤
    ⟨1, 1, WHITE, [], []⟩ (by intro s hs; simp at hs)
  exact ⟨h.1, h.2 rfl⟩

/-- **C2.**  `intersect_ray_sphere` agrees with the spec's formula
(`intersectRaySphereSpec`): coefficients `a = dot(direction,direction)`,
`b = 2*dot(origin-center,direction)`,
`c = dot(origin-center,origin-center) - radius²`; a negative discriminant
gives `(+∞, +∞)`, and otherwise both returned values are the roots
`(-b ± √(b² - 4ac))` divided by the full quantity `2a` — witnessed by the
fact that, for a nondegenerate direction, both returned values genuinely
solve `a·t² + b·t + c = 0` (a left-to-right `/2*a` would not). -/
theorem intersect_ray_sphere_correct (origin direction : Vec3) (sphere : Sphere) :
    intersect_ray_sphere origin direction sphere =
        intersectRaySphereSpec origin direction sphere ∧
      (rayDiscrim origin direction sphere < 0 →
        intersect_ray_sphere origin direction sphere = (⊤, ⊤)) ∧
      (0 ≤ rayDiscrim origin direction sphere → dot direction direction ≠ 0 →
        intersect_ray_sphere origin direction sphere =
            (((root1 origin direction sphere : ℝ) : EReal),
             ((root2 origin direction sphere : ℝ) : EReal)) ∧
          dot direction direction * root1 origin direction sphere ^ 2 +
              quadB origin direction sphere * root1 origin direction sphere +
              quadC origin sphere = 0 ∧
          dot direction direction * root2 origin direction sphere ^ 2 +
              quadB origin direction sphere * root2 origin direction sphere +
              quadC origin sphere = 0) := by
  refine ⟨rfl, ?_, ?_⟩
  · intro hneg
    rw [intersect_eq, if_pos hneg]
  · intro hpos ha
    have hdiscrim : discrim (dot direction direction) (quadB origin direction sphere)
        (quadC origin sphere) =
          Real.sqrt (rayDiscrim origin direction sphere) *
            Real.sqrt (rayDiscrim origin direction sphere) := by
      rw [Real.mul_self_sqrt hpos, discrim, rayDiscrim]
      ring
    refine ⟨by rw [intersect_eq, if_neg (not_lt.2 hpos)], ?_, ?_⟩
    · rw [pow_two]
      exact (quadratic_eq_zero_iff ha hdiscrim _).2 (Or.inl rfl)
    · rw [pow_two]
      exact (quadratic_eq_zero_iff ha hdiscrim _).2 (Or.inr rfl)

/-- Witness for C2 at the axis ray and sphere `center=(0,0,3)`, `radius=1`:
the discriminant is `4 ≥ 0`, `a = 1 ≠ 0`, and the roots evaluate to
`t₁ = 4`, `t₂ = 2`. -/
theorem intersect_ray_sphere_correct_witness :
    (0 : ℝ) ≤ rayDiscrim (0, 0, 0) (0, 0, 1) ⟨(0, 0, 3), 1, RED, some 500⟩ ∧
      dot ((0 : ℝ), (0 : ℝ), (1 : ℝ)) (0, 0, 1) ≠ 0 ∧
      intersect_ray_sphere (0, 0, 0) (0, 0, 1) ⟨(0, 0, 3), 1, RED, some 500⟩ =
        (((4 : ℝ) : EReal), ((2 : ℝ) : EReal)) ∧
      root1 (0, 0, 0) (0, 0, 1) ⟨(0, 0, 3), 1, RED, some 500⟩ = 4 ∧
      root2 (0, 0, 0) (0, 0, 1) ⟨(0, 0, 3), 1, RED, some 500⟩ = 2 := by
  have hB : quadB (0, 0, 0) (0, 0, 1) ⟨(0, 0, 3), 1, RED, some 500⟩ = -6 := by
    simp [quadB, dot, subtract]; norm_num
  have hC : quadC (0, 0, 0) ⟨(0, 0, 3), 1, RED, some 500⟩ = 8 := by
    simp [quadC, dot, subtract, Sphere.r2]; norm_num
  have hA : dot ((0 : ℝ), (0 : ℝ), (1 : ℝ)) (0, 0, 1) = 1 := by norm_num [dot]
  have hD : rayDiscrim (0, 0, 0) (0, 0, 1) ⟨(0, 0, 3), 1, RED, some 500⟩ = 4 := by
    rw [rayDiscrim, hB, hC, hA]; norm_num
  have hsq : Real.sqrt (rayDiscrim (0, 0, 0) (0, 0, 1) ⟨(0, 0, 3), 1, RED, some 500⟩) = 2 := by
    rw [hD, show (4 : ℝ) = 2 ^ 2 by norm_num]
    exact Real.sqrt_sq (by norm_num)
  have h1 : root1 (0, 0, 0) (0, 0, 1) ⟨(0, 0, 3), 1, RED, some 500⟩ = 4 := by
    rw [root1, hB, hsq, hA]; norm_num
  have h2 : root2 (0, 0, 0) (0, 0, 1) ⟨(0, 0, 3), 1, RED, some 500⟩ = 2 := by
    rw [root2, hB, hsq, hA]; norm_num
  have hmain := intersect_ray_sphere_correct (0, 0, 0) (0, 0, 1) ⟨(0, 0, 3), 1, RED, some 500⟩
  have hroots := hmain.2.2 (by rw [hD]; norm_num) (by rw [hA]; norm_num)
  refine ⟨by rw [hD]; norm_num, by rw [hA]; norm_num, ?_, h1, h2⟩
  rw [hroots.1, h1, h2]

/-- One iteration of the lighting loop adds exactly the per-light
contribution of the spec to the running intensity. -/
theorem lightingStep_eq (point normal view : Vec3) (spheres : List Sphere)
    (specular : Option ℤ) (acc : ℝ) (light : Light) :
    lightingStep point normal view spheres specular (length normal) (length view)
        acc light =
      acc + lightContribution point normal view spheres specular light := by
  obtain ⟨lt, inten, pos, dir⟩ := light
  cases lt with
  | AMBIENT => simp [lightingStep, lightContribution]
  | POINT =>
    rcases specular with _ | e <;>
      simp only [lightingStep, lightContribution, reduceCtorEq, if_false, if_true,
        reduceIte] <;>
      split_ifs <;> ring
  | DIRECTIONAL =>
    rcases specular with _ | e <;>
      simp only [lightingStep, lightContribution, reduceCtorEq, if_false, if_true,
        reduceIte] <;>
      split_ifs <;> ring

/-- `compute_lighting` is the sum over the light list of the spec's
per-light contributions. -/
theorem compute_lighting_eq_sum (point normal view : Vec3) (spheres : List Sphere)
    (lights : List Light) (specular : Option ℤ) :
    compute_lighting point normal view spheres lights specular =
      (lights.map (lightContribution point normal view spheres specular)).sum := by
  have general : ∀ (ls : List Light) (acc : ℝ),
      ls.foldl (lightingStep point normal view spheres specular (length normal)
        (length view)) acc =
      acc + (ls.map (lightContribution point normal view spheres specular)).sum := by
    intro ls
    induction ls with
    | nil => intro acc; simp
    | cons a l ih =>
      intro acc
      simp only [List.foldl_cons, List.map_cons, List.sum_cons]
      rw [lightingStep_eq, ih]
      ring
  unfold compute_lighting
  rw [general]
  ring

/-- **C4.**  `compute_lighting` decomposes as the sum, over the lights in
order, of `lightContribution` — the spec's per-light term, in which a point
light's shadow query is `closest_intersection(point, position − point,
EPSILON, 1.0, spheres)` and a directional light's is
`closest_intersection(point, direction, EPSILON, +∞, spheres)`, and a light
whose query returns any sphere contributes exactly `0` (both its diffuse and
specular terms are skipped), while every other light of the list still
contributes its own term: the loop is not aborted. -/
theorem compute_lighting_per_light (point normal view : Vec3) (spheres : List Sphere)
    (lights : List Light) (specular : Option ℤ) :
    compute_lighting point normal view spheres lights specular =
      (lights.map (lightContribution point normal view spheres specular)).sum :=
  compute_lighting_eq_sum point normal view spheres lights specular

/-- The guarded diffuse term is non-negative. -/
theorem diffuse_term_nonneg (inten x y z : ℝ) (h : 0 ≤ inten) (hy : 0 ≤ y)
    (hz : 0 ≤ z) (hx : 0 < x) : 0 ≤ inten * (x / (y * z)) :=
  mul_nonneg h (div_nonneg hx.le (mul_nonneg hy hz))

/-- The guarded specular term is non-negative. -/
theorem specular_term_nonneg (inten x y z : ℝ) (e : ℤ) (h : 0 ≤ inten)
    (hy : 0 ≤ y) (hz : 0 ≤ z) (hx : 0 < x) : 0 ≤ inten * (x / (y * z)) ^ e :=
  mul_nonneg h (zpow_nonneg (div_nonneg hx.le (mul_nonneg hy hz)) e)

/-- Each per-light contribution is non-negative when the light's intensity
is. -/
theorem lightContribution_nonneg (point normal view : Vec3) (spheres : List Sphere)
    (specular : Option ℤ) (light : Light) (h : 0 ≤ light.intensity) :
    0 ≤ lightContribution point normal view spheres specular light := by
  obtain ⟨lt, inten, pos, dir⟩ := light
  simp only at h
  cases lt <;> rcases specular with _ | e <;>
    simp only [lightContribution] <;>
    try split_ifs
  all_goals
    first
      | exact h
      | exact le_refl 0
      | (apply diffuse_term_nonneg _ _ _ _ h (length_nonneg _) (length_nonneg _) <;>
          assumption)
      | (apply specular_term_nonneg _ _ _ _ _ h (length_nonneg _) (length_nonneg _) <;>
          assumption)
      | (refine add_nonneg ?_ ?_ <;>
          first
            | exact le_refl 0
            | (apply diffuse_term_nonneg _ _ _ _ h (length_nonneg _)
                (length_nonneg _) <;> assumption)
            | (apply specular_term_nonneg _ _ _ _ _ h (length_nonneg _)
                (length_nonneg _) <;> assumption))

/-- **C10.**  If every light in the list has non-negative intensity, then
`compute_lighting` returns a non-negative intensity: every added term
(ambient intensity, the diffuse term guarded by `n_dot_l > 0`, the specular
term guarded by `r_dot_v > 0`) is non-negative. -/
theorem compute_lighting_nonneg (point normal view : Vec3) (spheres : List Sphere)
    (lights : List Light) (specular : Option ℤ)
    (h : ∀ l ∈ lights, 0 ≤ l.intensity) :
    0 ≤ compute_lighting point normal view spheres lights specular := by
  rw [compute_lighting_eq_sum]
  apply List.sum_nonneg
  intro x hx
  simp only [List.mem_map] at hx
  obtain ⟨l, hl, rfl⟩ := hx
  exact lightContribution_nonneg point normal view spheres specular l (h l hl)

/-- Witness for C10: a one-light demo configuration (ambient 0.2) with no
spheres yields a non-negative intensity. -/
theorem compute_lighting_nonneg_witness :
    0 ≤ compute_lighting (0, 0, 0) (0, 0, 1) (0, 0, -1) []
        [⟨LightType.AMBIENT, 0.2, (0, 0, 0), (0, 0, 0)⟩] none := by
  apply compute_lighting_nonneg
  intro l hl
  rcases List.mem_singleton.mp hl with rfl
  norm_num

/-- Evaluate `pyInt` on a non-negative argument. -/
theorem pyInt_eval_nonneg {x : ℝ} {z : ℤ} (h0 : 0 ≤ x) (h1 : (z : ℝ) ≤ x)
    (h2 : x < z + 1) : pyInt x = z := by
  unfold pyInt
  rw [if_pos h0]
  exact Int.floor_eq_iff.2 ⟨h1, h2⟩

/-- Evaluate `pyInt` on a negative argument (truncation toward zero, i.e.
the ceiling). -/
theorem pyInt_eval_neg {x : ℝ} {z : ℤ} (h0 : ¬ 0 ≤ x) (h1 : (z : ℝ) - 1 < x)
    (h2 : x ≤ z) : pyInt x = z := by
  unfold pyInt
  rw [if_neg h0]
  exact Int.ceil_eq_iff.2 ⟨h1, h2⟩

/-- An integer already inside `[0, 255]` is left unchanged by
`_clamp_value`. -/
theorem clamp_value_int {n : ℤ} (h0 : 0 ≤ n) (h255 : n ≤ 255) :
    clamp_value ((n : ℤ) : ℝ) = n := by
  unfold clamp_value
  rw [max_eq_right (by exact_mod_cast h0), min_eq_right (by exact_mod_cast h255),
    pyInt_intCast]

/-- `_clamp_value` always lands in `[0, 255]`. -/
theorem clamp_value_bounds (s : ℝ) : 0 ≤ clamp_value s ∧ clamp_value s ≤ 255 := by
  unfold clamp_value pyInt
  have h0 : (0 : ℝ) ≤ min 255 (max 0 s) := le_min (by norm_num) (le_max_left 0 s)
  rw [if_pos h0]
  refine ⟨Int.floor_nonneg.2 h0, ?_⟩
  calc ⌊min 255 (max 0 s)⌋ ≤ ⌊(255 : ℝ)⌋ := Int.floor_le_floor (min_le_left _ _)
  _ = 255 := by rw [show (255 : ℝ) = ((255 : ℤ) : ℝ) by norm_num, Int.floor_intCast]

/-- **C7.**  `clamp` is idempotent — a color triple whose components already
lie in `[0, 255]` is returned unchanged — and for every input vector each
component of the output lies in `[0, 255]`. -/
theorem clamp_idempotent_and_bounded :
    (∀ c : Color, 0 ≤ c.1 → c.1 ≤ 255 → 0 ≤ c.2.1 → c.2.1 ≤ 255 →
      0 ≤ c.2.2 → c.2.2 ≤ 255 → clamp (colorToVec c) = c) ∧
    (∀ v : Vec3, (0 ≤ (clamp v).1 ∧ (clamp v).1 ≤ 255) ∧
      (0 ≤ (clamp v).2.1 ∧ (clamp v).2.1 ≤ 255) ∧
      (0 ≤ (clamp v).2.2 ∧ (clamp v).2.2 ≤ 255)) := by
  constructor
  · intro c h1 h2 h3 h4 h5 h6
    obtain ⟨r, g, b⟩ := c
    simp only [colorToVec, clamp]
    rw [clamp_value_int h1 h2, clamp_value_int h3 h4, clamp_value_int h5 h6]
  · intro v
    exact ⟨clamp_value_bounds _, clamp_value_bounds _, clamp_value_bounds _⟩

/-- Witness for C7: the color `(10, 20, 255)` is in range and is a fixed
point of `clamp`; the out-of-range vector `(-5, 300, 17)` clamps into
`[0, 255]` in each component. -/
theorem clamp_idempotent_and_bounded_witness :
    clamp (colorToVec (10, 20, 255)) = (10, 20, 255) ∧
      ((0 ≤ (clamp (-5, 300, 17)).1 ∧ (clamp (-5, 300, 17)).1 ≤ 255) ∧
        (0 ≤ (clamp (-5, 300, 17)).2.1 ∧ (clamp (-5, 300, 17)).2.1 ≤ 255) ∧
        (0 ≤ (clamp (-5, 300, 17)).2.2 ∧ (clamp (-5, 300, 17)).2.2 ≤ 255)) :=
  ⟨clamp_idempotent_and_bounded.1 (10, 20, 255) (by norm_num) (by norm_num)
      (by norm_num) (by norm_num) (by norm_num) (by norm_num),
    clamp_idempotent_and_bounded.2 (-5, 300, 17)⟩

/-- For even dimensions and an integer pixel offset, the raster coordinate
`put_pixel` computes is exactly `(width/2 + x, height/2 - y - 1)`. -/
theorem pixelTarget_even (img : Image) (m n : ℕ) (hw : img.width = 2 * m)
    (hh : img.height = 2 * n) (k : ℤ × ℤ) :
    pixelTarget img k = ((m : ℤ) + k.1, (n : ℤ) - k.2 - 1) := by
  unfold pixelTarget
  rw [hw, hh]
  have hx : ((2 * m : ℕ) : ℝ) / 2 + ((k.1 : ℤ) : ℝ) = (((m : ℤ) + k.1 : ℤ) : ℝ) := by
    push_cast; ring
  have hy : ((2 * n : ℕ) : ℝ) / 2 - ((k.2 : ℤ) : ℝ) = (((n : ℤ) - k.2 : ℤ) : ℝ) := by
    push_cast; ring
  rw [hx, hy, pyInt_intCast, pyInt_intCast]

/-- **C8 (amended).**  `put_pixel` computes the raster coordinate
`(trunc(width/2 + x), trunc(height/2 − y) − 1)` where `trunc` is Python's
`int()` truncation toward zero (`pyInt`); it writes the color at exactly that
coordinate when it lies within the raster bounds, changes no other raster
cell, and silently leaves the raster entirely unchanged when the coordinate
is out of bounds.  For even dimensions and integer offsets the coordinate
simplifies to `(width/2 + x, height/2 − y − 1)` as the claim states. -/
theorem put_pixel_correct (img : Image) (pixels : Raster) (point : Vec2) (color : Color) :
    (∀ q : ℤ × ℤ,
      q ≠ (pyInt ((img.width : ℝ) / 2 + point.1),
           pyInt ((img.height : ℝ) / 2 - point.2) - 1) →
      put_pixel img pixels point color q = pixels q) ∧
    (inRaster img (pyInt ((img.width : ℝ) / 2 + point.1),
        pyInt ((img.height : ℝ) / 2 - point.2) - 1) →
      put_pixel img pixels point color
        (pyInt ((img.width : ℝ) / 2 + point.1),
         pyInt ((img.height : ℝ) / 2 - point.2) - 1) = color) ∧
    (¬ inRaster img (pyInt ((img.width : ℝ) / 2 + point.1),
        pyInt ((img.height : ℝ) / 2 - point.2) - 1) →
      put_pixel img pixels point color = pixels) ∧
    (∀ (m n : ℕ) (x y : ℤ), img.width = 2 * m → img.height = 2 * n →
      pixelTarget img (x, y) = ((m : ℤ) + x, (n : ℤ) - y - 1)) := by
  refine ⟨?_, ?_, ?_, ?_⟩
  · intro q hq
    simp only [put_pixel]
    split_ifs
    · simp only [updateRaster]
      rw [if_neg hq]
    · rfl
  · intro hin
    simp only [put_pixel]
    split_ifs with h
    · simp only [updateRaster]
      rw [if_pos trivial]
    · exact absurd hin h
  · intro hout
    simp only [put_pixel]
    split_ifs with h
    · exact absurd h hout
    · rfl
  · intro m n x y hw hh
    exact pixelTarget_even img m n hw hh (x, y)

/-- Witness for C8 (amended) on a 4×4 image at integer offset `(1, 1)`:
the target is raster cell `(3, 0) = (4/2 + 1, 4/2 - 1 - 1)`, the color is
written there, and an unrelated cell is untouched. -/
theorem put_pixel_correct_witness :
    put_pixel ⟨4, 4⟩ (fun _ => BLACK) ((1 : ℝ), (1 : ℝ)) (9, 9, 9) (3, 0) = (9, 9, 9) ∧
      put_pixel ⟨4, 4⟩ (fun _ => BLACK) ((1 : ℝ), (1 : ℝ)) (9, 9, 9) (0, 0) = BLACK ∧
      pixelTarget ⟨4, 4⟩ (1, 1) = (3, 0) := by
  obtain ⟨hother, hwrite, _, heven⟩ :=
    put_pixel_correct ⟨4, 4⟩ (fun _ => BLACK) ((1 : ℝ), (1 : ℝ)) (9, 9, 9)
  have hx : pyInt (((⟨4, 4⟩ : Image).width : ℝ) / 2 + ((1 : ℝ), (1 : ℝ)).1) = 3 :=
    pyInt_eval_nonneg (by norm_num) (by norm_num) (by norm_num)
  have hy : pyInt (((⟨4, 4⟩ : Image).height : ℝ) / 2 - ((1 : ℝ), (1 : ℝ)).2) - 1 = 0 := by
    rw [pyInt_eval_nonneg (z := 1) (by norm_num) (by norm_num) (by norm_num)]
    norm_num
  rw [hx, hy] at hwrite hother
  refine ⟨hwrite ⟨by norm_num, by norm_num, by norm_num, by norm_num⟩, ?_, ?_⟩
  · exact hother (0, 0) (by decide)
  · exact (heven 2 2 1 1 rfl rfl).trans (by norm_num [Prod.ext_iff])

/-- Counterexample to C8 as stated: width 5, offset `x = -3`.  The claimed
raster column `width/2 + x` is negative (out of bounds, so the claim demands
the write be dropped with no raster change), but Python's `int(5/2 - 3) =
int(-0.5) = 0` truncates toward zero into bounds and the code writes the
color at column 0. -/
theorem put_pixel_claim_counterexample :
    ((5 : ℝ) / 2 + (-3 : ℝ) < 0) ∧
      put_pixel ⟨5, 2⟩ (fun _ => BLACK) (-3, 0) (7, 7, 7) (0, 0) = (7, 7, 7) ∧
      ((7, 7, 7) : Color) ≠ BLACK := by
  refine ⟨by norm_num, ?_, by decide⟩
  have hx : pyInt (((⟨5, 2⟩ : Image).width : ℝ) / 2 + ((-3 : ℝ), (0 : ℝ)).1) = 0 := by
    apply pyInt_eval_neg <;> norm_num
  have hy : pyInt (((⟨5, 2⟩ : Image).height : ℝ) / 2 - ((-3 : ℝ), (0 : ℝ)).2) - 1 = 0 := by
    rw [pyInt_eval_nonneg (z := 1) (by norm_num) (by norm_num) (by norm_num)]
    norm_num
  simp only [put_pixel, hx, hy]
  rw [if_pos (by norm_num)]
  simp only [updateRaster]
  rw [if_pos trivial]

/-- Membership in the embedded Python `range`. -/
theorem intRange_mem {a b z : ℤ} : z ∈ intRange a b ↔ a ≤ z ∧ z < b := by
  unfold intRange
  simp only [List.mem_map, List.mem_range]
  constructor
  · rintro ⟨i, hi, rfl⟩
    omega
  · intro h
    exact ⟨(z - a).toNat, by omega, by omega⟩

/-- A nested fold over two index lists equals a fold over the flattened list
of index pairs. -/
theorem foldl_pair_flatten {γ : Type} (xs ys : List ℤ) (g : γ → ℤ × ℤ → γ)
    (init : γ) :
    xs.foldl (fun c x => ys.foldl (fun c' y => g c' (x, y)) c) init =
      (xs.flatMap (fun x => ys.map (fun y => (x, y)))).foldl g init := by
  induction xs generalizing init with
  | nil => rfl
  | cons a xs ih =>
    simp only [List.foldl_cons, List.flatMap_cons, List.foldl_append, List.foldl_map]
    exact ih _

/-- `draw_scene` is the fold of the per-pixel write over its iteration
order. -/
theorem draw_scene_eq_drawOrder (scene : Scene) (img : Image) (cam : Vec3)
    (pixels : Raster) :
    draw_scene scene img cam pixels =
      (drawOrder img).foldl (writePixel scene cam img) pixels := by
  unfold draw_scene drawOrder
  rw [← foldl_pair_flatten]
  rfl

/-- `writePixel` in conditional-update form. -/
theorem writePixel_eq (scene : Scene) (cam : Vec3) (img : Image) (r : Raster)
    (k : ℤ × ℤ) :
    writePixel scene cam img r k =
      if inRaster img (pixelTarget img k) then
        updateRaster r (pixelTarget img k) (pixelColor scene cam img k)
      else r := by
  simp only [writePixel, put_pixel]
  split_ifs with h1 h2 h2 <;> first | rfl | exact absurd h1 h2 | exact absurd h2 h1

/-- A fold of pixel writes leaves untouched every raster cell that is the
target of no offset in the list. -/
theorem foldl_writePixel_other (scene : Scene) (cam : Vec3) (img : Image) :
    ∀ (ps : List (ℤ × ℤ)) (r : Raster) (q : ℤ × ℤ),
      (∀ k ∈ ps, pixelTarget img k ≠ q) →
      (ps.foldl (writePixel scene cam img) r) q = r q := by
  intro ps
  induction ps with
  | nil => intro r q _; rfl
  | cons a ps ih =>
    intro r q h
    simp only [List.foldl_cons]
    rw [ih _ q (fun k hk => h k (List.mem_cons_of_mem a hk))]
    rw [writePixel_eq]
    split_ifs
    · simp only [updateRaster]
      rw [if_neg (Ne.symm (h a (List.mem_cons_self a ps)))]
    · rfl

/-- A fold of pixel writes stores, at the in-bounds target of an offset that
occurs in the list and whose target no other listed offset shares, exactly
the per-pixel color of that offset — independently of the initial raster. -/
theorem foldl_writePixel_at (scene : Scene) (cam : Vec3) (img : Image) :
    ∀ (ps : List (ℤ × ℤ)) (r : Raster) (k₀ : ℤ × ℤ),
      k₀ ∈ ps → inRaster img (pixelTarget img k₀) →
      (∀ k ∈ ps, pixelTarget img k = pixelTarget img k₀ → k = k₀) →
      (ps.foldl (writePixel scene cam img) r) (pixelTarget img k₀) =
        pixelColor scene cam img k₀ := by
  intro ps
  induction ps with
  | nil => intro r k₀ hmem; exact absurd hmem (List.not_mem_nil k₀)
  | cons a ps ih =>
    intro r k₀ hmem hin huniq
    simp only [List.foldl_cons]
    by_cases hk : k₀ ∈ ps
    · exact ih _ k₀ hk hin (fun k hkps => huniq k (List.mem_cons_of_mem a hkps))
    · have hk₀ : k₀ = a := by
        rcases List.mem_cons.mp hmem with h | h
        · exact h
        · exact absurd h hk
      subst hk₀
      have hother : ∀ k ∈ ps, pixelTarget img k ≠ pixelTarget img k₀ := by
        intro k hkps heq
        have hkk : k = k₀ := huniq k (List.mem_cons_of_mem k₀ hkps) heq
        rw [hkk] at hkps
        exact hk hkps
      rw [foldl_writePixel_other scene cam img ps _ _ hother]
      rw [writePixel_eq, if_pos hin]
      simp [updateRaster]

/-- Membership in the visited offsets for even dimensions. -/
theorem drawOrder_mem_even (img : Image) (m n : ℕ) (hw : img.width = 2 * m)
    (hh : img.height = 2 * n) (k : ℤ × ℤ) :
    k ∈ drawOrder img ↔
      -(m : ℤ) ≤ k.1 ∧ k.1 < (m : ℤ) ∧ -(n : ℤ) ≤ k.2 ∧ k.2 < (n : ℤ) := by
  unfold drawOrder
  rw [hw, hh]
  have hx1 : pyInt (-((2 * m : ℕ) : ℝ) / 2) = -(m : ℤ) := by
    rw [show -((2 * m : ℕ) : ℝ) / 2 = ((-(m : ℤ) : ℤ) : ℝ) by push_cast; ring,
      pyInt_intCast]
  have hx2 : pyInt (((2 * m : ℕ) : ℝ) / 2) = (m : ℤ) := by
    rw [show ((2 * m : ℕ) : ℝ) / 2 = (((m : ℤ) : ℤ) : ℝ) by push_cast; ring,
      pyInt_intCast]
  have hy1 : pyInt (-((2 * n : ℕ) : ℝ) / 2) = -(n : ℤ) := by
    rw [show -((2 * n : ℕ) : ℝ) / 2 = ((-(n : ℤ) : ℤ) : ℝ) by push_cast; ring,
      pyInt_intCast]
  have hy2 : pyInt (((2 * n : ℕ) : ℝ) / 2) = (n : ℤ) := by
    rw [show ((2 * n : ℕ) : ℝ) / 2 = (((n : ℤ) : ℤ) : ℝ) by push_cast; ring,
      pyInt_intCast]
  rw [hx1, hx2, hy1, hy2]
  simp only [List.mem_flatMap, List.mem_map, intRange_mem]
  constructor
  · rintro ⟨x, hx, y, hy, rfl⟩
    exact ⟨hx.1, hx.2, hy.1, hy.2⟩
  · intro h
    exact ⟨k.1, ⟨h.1, h.2.1⟩, k.2, ⟨h.2.2.1, h.2.2.2⟩, rfl⟩

/-- **C6 (amended).**  For an image of even dimensions `2m × 2n`,
`draw_scene` writes every raster pixel `(px, py)`: the final raster holds at
that coordinate the color obtained by mapping the corresponding
center-origin offset through `canvas_to_viewport`, tracing with `t_min = 1`
and `t_max = +∞`, and clamping — the write going through `put_pixel`.  (For
odd dimensions the iteration ranges `range(int(-size/2), int(size/2))` miss
the last row/column; see the counterexample.) -/
theorem draw_scene_writes_every_pixel (scene : Scene) (img : Image) (cam : Vec3)
    (r0 : Raster) (m n : ℕ) (hw : img.width = 2 * m) (hh : img.height = 2 * n)
    (px py : ℤ) (hx0 : 0 ≤ px) (hx1 : px < (img.width : ℤ))
    (hy0 : 0 ≤ py) (hy1 : py < (img.height : ℤ)) :
    draw_scene scene img cam r0 (px, py) =
      clamp (trace_ray cam
        (canvas_to_viewport ((((px - (m : ℤ)) : ℤ) : ℝ), ((((n : ℤ) - 1 - py) : ℤ) : ℝ))
          img scene)
        ((1 : ℝ) : EReal) ⊤ scene) := by
  have hx1' : px < 2 * (m : ℤ) := by rw [hw] at hx1; exact_mod_cast hx1
  have hy1' : py < 2 * (n : ℤ) := by rw [hh] at hy1; exact_mod_cast hy1
  have hk₀tgt : pixelTarget img (px - (m : ℤ), (n : ℤ) - 1 - py) = (px, py) := by
    rw [pixelTarget_even img m n hw hh]
    congr 1 <;> ring
  rw [draw_scene_eq_drawOrder, ← hk₀tgt]
  rw [foldl_writePixel_at scene cam img (drawOrder img) r0
    (px - (m : ℤ), (n : ℤ) - 1 - py) ?_ ?_ ?_]
  · rfl
  · rw [drawOrder_mem_even img m n hw hh]
    dsimp only
    omega
  · rw [hk₀tgt]
    exact ⟨hx0, hx1, hy0, hy1⟩
  · intro k _ heq
    rw [pixelTarget_even img m n hw hh k,
      pixelTarget_even img m n hw hh (px - (m : ℤ), (n : ℤ) - 1 - py)] at heq
    have h1 : (m : ℤ) + k.1 = (m : ℤ) + (px - (m : ℤ)) := congrArg Prod.fst heq
    have h2 : (n : ℤ) - k.2 - 1 = (n : ℤ) - ((n : ℤ) - 1 - py) - 1 :=
      congrArg Prod.snd heq
    exact Prod.ext (by omega) (by omega)

/-- Counterexample to C6 as stated: a 1×1 image.  The loop ranges
`range(int(-1/2), int(1/2)) = range(0, 0)` are empty, so `draw_scene` visits
no pixel at all and the raster is returned unchanged (still black at pixel
`(0,0)`), although the claimed per-pixel color (the clamped background) is
white. -/
theorem draw_scene_claim_counterexample :
    draw_scene ⟨1, 1, WHITE, [], []⟩ ⟨1, 1⟩ (0, 0, 0) (fun _ => BLACK) =
        (fun _ => BLACK) ∧
      clamp (colorToVec BACKGROUND_COLOR) ≠ BLACK := by
  constructor
  · unfold draw_scene
    have h1 : pyInt (-(((⟨1, 1⟩ : Image).width : ℕ) : ℝ) / 2) = 0 :=
      pyInt_eval_neg (by norm_num) (by norm_num) (by norm_num)
    have h2 : pyInt ((((⟨1, 1⟩ : Image).width : ℕ) : ℝ) / 2) = 0 :=
      pyInt_eval_nonneg (by norm_num) (by norm_num) (by norm_num)
    rw [h1, h2]
    rfl
  · have hclamp : clamp (colorToVec BACKGROUND_COLOR) = WHITE := by
      show (clamp_value ((255 : ℤ) : ℝ), clamp_value ((255 : ℤ) : ℝ),
        clamp_value ((255 : ℤ) : ℝ)) = ((255 : ℤ), (255 : ℤ), (255 : ℤ))
      rw [clamp_value_int (by norm_num) (by norm_num)]
    rw [hclamp]
    decide

/-- Witness for C6 (amended) at a 2×2 image with an empty scene: pixel
`(0,0)` receives the clamped traced color, which evaluates to white. -/
theorem draw_scene_writes_every_pixel_witness :
    draw_scene ⟨1, 1, WHITE, [], []⟩ ⟨2, 2⟩ (0, 0, 0) (fun _ => BLACK) (0, 0) =
        clamp (trace_ray (0, 0, 0)
          (canvas_to_viewport ((((0 - (1 : ℤ)) : ℤ) : ℝ), ((((1 : ℤ) - 1 - 0) : ℤ) : ℝ))
            ⟨2, 2⟩ ⟨1, 1, WHITE, [], []⟩)
          ((1 : ℝ) : EReal) ⊤ ⟨1, 1, WHITE, [], []⟩) ∧
      draw_scene ⟨1, 1, WHITE, [], []⟩ ⟨2, 2⟩ (0, 0, 0) (fun _ => BLACK) (0, 0) = WHITE := by
  have h := draw_scene_writes_every_pixel ⟨1, 1, WHITE, [], []⟩ ⟨2, 2⟩ (0, 0, 0)
    (fun _ => BLACK) 1 1 rfl rfl 0 0 (by norm_num) (by norm_num) (by norm_num)
    (by norm_num)
  refine ⟨h, ?_⟩
  rw [h]
  show (clamp_value ((255 : ℤ) : ℝ), clamp_value ((255 : ℤ) : ℝ),
    clamp_value ((255 : ℤ) : ℝ)) = ((255 : ℤ), (255 : ℤ), (255 : ℤ))
  rw [clamp_value_int (by norm_num) (by norm_num)]

/-- **C9.**  Rendering is deterministic and per-pixel independent: for even
dimensions, the color stored at a raster pixel is `pixelColor` — a pure
function of the scene, the camera position, the image dimensions and that
pixel's own offset — regardless of the traversal order of the pixel offsets
(any permutation of `drawOrder`) and regardless of the initial raster
contents; in particular two `draw_scene` runs over different initial rasters
agree at every pixel. -/
theorem render_deterministic_and_independent (scene : Scene) (cam : Vec3)
    (img : Image) (m n : ℕ) (hw : img.width = 2 * m) (hh : img.height = 2 * n)
    (r1 r2 : Raster) (ps : List (ℤ × ℤ)) (hperm : ps.Perm (drawOrder img))
    (px py : ℤ) (hx0 : 0 ≤ px) (hx1 : px < (img.width : ℤ))
    (hy0 : 0 ≤ py) (hy1 : py < (img.height : ℤ)) :
    (ps.foldl (writePixel scene cam img) r1) (px, py) =
        pixelColor scene cam img (px - (m : ℤ), (n : ℤ) - 1 - py) ∧
      (ps.foldl (writePixel scene cam img) r1) (px, py) =
        draw_scene scene img cam r2 (px, py) ∧
      draw_scene scene img cam r1 (px, py) = draw_scene scene img cam r2 (px, py) := by
  have hx1' : px < 2 * (m : ℤ) := by rw [hw] at hx1; exact_mod_cast hx1
  have hy1' : py < 2 * (n : ℤ) := by rw [hh] at hy1; exact_mod_cast hy1
  have hk₀tgt : pixelTarget img (px - (m : ℤ), (n : ℤ) - 1 - py) = (px, py) := by
    rw [pixelTarget_even img m n hw hh]
    congr 1 <;> ring
  have huniq : ∀ k : ℤ × ℤ,
      pixelTarget img k = pixelTarget img (px - (m : ℤ), (n : ℤ) - 1 - py) →
      k = (px - (m : ℤ), (n : ℤ) - 1 - py) := by
    intro k heq
    rw [pixelTarget_even img m n hw hh k,
      pixelTarget_even img m n hw hh (px - (m : ℤ), (n : ℤ) - 1 - py)] at heq
    have h1 : (m : ℤ) + k.1 = (m : ℤ) + (px - (m : ℤ)) := congrArg Prod.fst heq
    have h2 : (n : ℤ) - k.2 - 1 = (n : ℤ) - ((n : ℤ) - 1 - py) - 1 :=
      congrArg Prod.snd heq
    exact Prod.ext (by omega) (by omega)
  have hin : inRaster img (pixelTarget img (px - (m : ℤ), (n : ℤ) - 1 - py)) := by
    rw [hk₀tgt]
    exact ⟨hx0, hx1, hy0, hy1⟩
  have hmem_draw : (px - (m : ℤ), (n : ℤ) - 1 - py) ∈ drawOrder img := by
    rw [drawOrder_mem_even img m n hw hh]
    dsimp only
    omega
  have hmem_ps : (px - (m : ℤ), (n : ℤ) - 1 - py) ∈ ps := hperm.mem_iff.2 hmem_draw
  have hA := foldl_writePixel_at scene cam img ps r1 _ hmem_ps hin
    (fun k _ => huniq k)
  have hB := foldl_writePixel_at scene cam img (drawOrder img) r2 _ hmem_draw hin
    (fun k _ => huniq k)
  have hC := foldl_writePixel_at scene cam img (drawOrder img) r1 _ hmem_draw hin
    (fun k _ => huniq k)
  refine ⟨?_, ?_, ?_⟩
  · rw [← hk₀tgt]
    exact hA
  · rw [← hk₀tgt, draw_scene_eq_drawOrder, hA, hB]
  · rw [← hk₀tgt, draw_scene_eq_drawOrder, draw_scene_eq_drawOrder, hC, hB]

/-- Witness for C9: a 2×2 image, the reversed traversal order, and two
different initial rasters produce the same color at pixel `(0,0)`. -/
theorem render_deterministic_and_independent_witness :
    ((drawOrder ⟨2, 2⟩).reverse.foldl
        (writePixel ⟨1, 1, WHITE, [], []⟩ (0, 0, 0) ⟨2, 2⟩) (fun _ => BLACK)) (0, 0) =
        draw_scene ⟨1, 1, WHITE, [], []⟩ ⟨2, 2⟩ (0, 0, 0) (fun _ => RED) (0, 0) ∧
      draw_scene ⟨1, 1, WHITE, [], []⟩ ⟨2, 2⟩ (0, 0, 0) (fun _ => BLACK) (0, 0) =
        draw_scene ⟨1, 1, WHITE, [], []⟩ ⟨2, 2⟩ (0, 0, 0) (fun _ => RED) (0, 0) := by
  have h := render_deterministic_and_independent ⟨1, 1, WHITE, [], []⟩ (0, 0, 0)
    ⟨2, 2⟩ 1 1 rfl rfl (fun _ => BLACK) (fun _ => RED) (drawOrder ⟨2, 2⟩).reverse
    (List.reverse_perm _) 0 0 (by norm_num) (by norm_num) (by norm_num) (by norm_num)
  exact ⟨h.2.1, h.2.2⟩

end
